import Mathlib

/-!
Verification of the retrieval-and-context-assembly engine of the NavShiksha
RAG chatbot (sources: `retriever.py`, `chatbot.py`, `config.py`).

Python strings are modelled as lists of characters (`PyStr`).  The sklearn
`TfidfVectorizer` / `cosine_similarity` computation is external library code;
the search pipeline is therefore modelled with the similarity row
(`cosine_similarity(query_vec, tfidf_matrix).flatten()`) as an explicit list
of rationals, and the vectorizer's analyzer (lowercase, `\w\w+` token
pattern, English stop words, unigrams + bigrams) is embedded separately so
that concrete similarity rows used in theorems can be grounded in the
token-level model (a query with no tokens has a zero vector, hence zero
cosine against every chunk).
-/

/-- A Python string, modelled as its list of characters. -/
abbrev PyStr := List Char

/-- Coerce a Lean string literal to the `PyStr` model. -/
def pys (s : String) : PyStr := s.data

/-- Python `str.lower` restricted to the characters occurring in this code
base: ASCII letters are lowercased, every other character (digits,
punctuation, whitespace, Devanagari) is unchanged. -/
def asciiLower (c : Char) : Char :=
  if 'A' ≤ c ∧ c ≤ 'Z' then Char.ofNat (c.toNat + 32) else c

/-- Python `s.lower()`. -/
def pyLower (s : PyStr) : PyStr := s.map asciiLower

/-- Python substring test `p in s`. -/
def strIn (p : PyStr) : PyStr → Bool
  | [] => p.isEmpty
  | c :: rest => p.isPrefixOf (c :: rest) || strIn p rest

/-- Python slice `l[-k:]`: for `k = 0` this is `l[0:] = l` (the `-0 = 0`
pitfall), otherwise the last `min k (length l)` elements. -/
def pyTail (k : Nat) (l : List α) : List α :=
  if k = 0 then l else l.drop (l.length - k)

/-- `QUERY_EXPANSIONS` from `retriever.py` (lines 15-24), in Python dict
insertion order (Python 3.7+ dicts iterate in insertion order). -/
def QUERY_EXPANSIONS : List (PyStr × PyStr) :=
  [ (pys "teach", pys "teach teacher teaching instructor create course upload"),
    (pys "learn", pys "learn student learning enroll course study"),
    (pys "register", pys "register signup sign up registration account create"),
    (pys "certificate", pys "certificate blockchain verification verify certified"),
    (pys "whiteboard", pys "whiteboard collaborative drawing tools canvas"),
    (pys "class", pys "class live session audio video meeting"),
    (pys "doubt", pys "doubt question ask help support resolution"),
    (pys "admin", pys "admin administrator manage platform users") ]

/-- `HINDI_TO_ENGLISH` from `retriever.py` (lines 27-57), in dict insertion
order. -/
def HINDI_TO_ENGLISH : List (PyStr × PyStr) :=
  [ (pys "नवशिक्षा", pys "NavShiksha"),
    (pys "navshiksha", pys "NavShiksha"),
    (pys "क्या", pys "what is"),
    (pys "कैसे", pys "how to"),
    (pys "कैसा", pys "how"),
    (pys "शिक्षक", pys "teacher"),
    (pys "अध्यापक", pys "teacher"),
    (pys "पढ़ाना", pys "teach teaching"),
    (pys "पढ़ाई", pys "study learn"),
    (pys "सीखना", pys "learn learning"),
    (pys "छात्र", pys "student"),
    (pys "विद्यार्थी", pys "student"),
    (pys "पंजीकरण", pys "register registration"),
    (pys "रजिस्टर", pys "register"),
    (pys "प्रमाणपत्र", pys "certificate"),
    (pys "सर्टिफिकेट", pys "certificate"),
    (pys "व्हाइटबोर्ड", pys "whiteboard"),
    (pys "कक्षा", pys "class"),
    (pys "क्लास", pys "class"),
    (pys "संदेह", pys "doubt"),
    (pys "सवाल", pys "question"),
    (pys "कोर्स", pys "course"),
    (pys "पाठ्यक्रम", pys "course"),
    (pys "के", pys "what"),
    (pys "कियां", pys "how"),
    (pys "मास्टर", pys "teacher") ]

/-- The loop body of `Retriever._translate_query`: for each
`(hindi_word, english_word)` pair, if the keyword occurs in the original
query, append `" " ++ english_word` to the accumulator. -/
def translateAux (q : PyStr) : List (PyStr × PyStr) → PyStr → PyStr
  | [], acc => acc
  | (h, e) :: rest, acc =>
      translateAux q rest (if strIn h q then acc ++ pys " " ++ e else acc)

/-- `Retriever._translate_query` (`retriever.py` lines 80-88). -/
def translate_query (q : PyStr) : PyStr := translateAux q HINDI_TO_ENGLISH q

/-- The `for ... break` loop of `Retriever._expand_query`: the expansion
phrase of the first pair whose trigger keyword occurs in the lowercased
query, if any. -/
def findExpansion (ql : PyStr) : List (PyStr × PyStr) → Option PyStr
  | [] => none
  | (k, e) :: rest => if strIn k ql then some e else findExpansion ql rest

/-- `Retriever._expand_query` (`retriever.py` lines 90-105): translate, then
append the first matching expansion phrase (if any) to the translated
query. -/
def expand_query (q : PyStr) : PyStr :=
  match findExpansion (pyLower (translate_query q)) QUERY_EXPANSIONS with
  | some e => translate_query q ++ pys " " ++ e
  | none => translate_query q

/-- A word character for the `TfidfVectorizer` token pattern (Python regex
word characters, restricted to the scripts occurring in this code base:
ASCII alphanumerics, underscore, and the Devanagari block). -/
def isWordChar (c : Char) : Bool :=
  c.isAlphanum || c = '_' || (0x0900 ≤ c.toNat && c.toNat ≤ 0x097F)

/-- Maximal runs of word characters (the `\w\w+` token pattern first
extracts maximal word-character runs; runs of length 1 are dropped by
`tokenize` below). `cur` is the run currently being read, reversed. -/
def splitRunsAux : PyStr → PyStr → List PyStr
  | [], cur => if cur.isEmpty then [] else [cur.reverse]
  | c :: rest, cur =>
      if isWordChar c then splitRunsAux rest (c :: cur)
      else if cur.isEmpty then splitRunsAux rest []
      else cur.reverse :: splitRunsAux rest []

def splitRuns (s : PyStr) : List PyStr := splitRunsAux s []

/-- sklearn's built-in English stop-word list (`stop_words='english'` in
`retriever.py` line 66). -/
def ENGLISH_STOP_WORDS : List PyStr :=
  [ "a", "about", "above", "across", "after", "afterwards", "again",
    "against", "all", "almost", "alone", "along", "already", "also",
    "although", "always", "am", "among", "amongst", "amoungst", "amount",
    "an", "and", "another", "any", "anyhow", "anyone", "anything", "anyway",
    "anywhere", "are", "around", "as", "at", "back", "be", "became",
    "because", "become", "becomes", "becoming", "been", "before",
    "beforehand", "behind", "being", "below", "beside", "besides",
    "between", "beyond", "bill", "both", "bottom", "but", "by", "call",
    "can", "cannot", "cant", "co", "con", "could", "couldnt", "cry", "de",
    "describe", "detail", "do", "done", "down", "due", "during", "each",
    "eg", "eight", "either", "eleven", "else", "elsewhere", "empty",
    "enough", "etc", "even", "ever", "every", "everyone", "everything",
    "everywhere", "except", "few", "fifteen", "fifty", "fill", "find",
    "fire", "first", "five", "for", "former", "formerly", "forty", "found",
    "four", "from", "front", "full", "further", "get", "give", "go", "had",
    "has", "hasnt", "have", "he", "hence", "her", "here", "hereafter",
    "hereby", "herein", "hereupon", "hers", "herself", "him", "himself",
    "his", "how", "however", "hundred", "i", "ie", "if", "in", "inc",
    "indeed", "interest", "into", "is", "it", "its", "itself", "keep",
    "last", "latter", "latterly", "least", "less", "ltd", "made", "many",
    "may", "me", "meanwhile", "might", "mill", "mine", "more", "moreover",
    "most", "mostly", "move", "much", "must", "my", "myself", "name",
    "namely", "neither", "never", "nevertheless", "next", "nine", "no",
    "nobody", "none", "noone", "nor", "not", "nothing", "now", "nowhere",
    "of", "off", "often", "on", "once", "one", "only", "onto", "or",
    "other", "others", "otherwise", "our", "ours", "ourselves", "out",
    "over", "own", "part", "per", "perhaps", "please", "put", "rather",
    "re", "same", "see", "seem", "seemed", "seeming", "seems", "serious",
    "several", "she", "should", "show", "side", "since", "sincere", "six",
    "sixty", "so", "some", "somehow", "someone", "something", "sometime",
    "sometimes", "somewhere", "still", "such", "system", "take", "ten",
    "than", "that", "the", "their", "them", "themselves", "then", "thence",
    "there", "thereafter", "thereby", "therefore", "therein", "thereupon",
    "these", "they", "thick", "thin", "third", "this", "those", "though",
    "three", "through", "throughout", "thru", "thus", "to", "together",
    "too", "top", "toward", "towards", "twelve", "twenty", "two", "un",
    "under", "until", "up", "upon", "us", "very", "via", "was", "we",
    "well", "were", "what", "whatever", "when", "whence", "whenever",
    "where", "whereafter", "whereas", "whereby", "wherein", "whereupon",
    "wherever", "whether", "which", "while", "whither", "who", "whoever",
    "whole", "whom", "whose", "why", "will", "with", "within", "without",
    "would", "yet", "you", "your", "yours", "yourself",
    "yourselves" ].map pys

/-- The vectorizer's word-level tokenizer: lowercase, extract maximal
word-character runs of length at least 2, drop stop words. -/
def tokenize (s : PyStr) : List PyStr :=
  ((splitRuns (pyLower s)).filter (fun t => 2 ≤ t.length)).filter
    (fun t => !(ENGLISH_STOP_WORDS.contains t))

/-- Space-joined adjacent pairs of tokens (`ngram_range=(1, 2)` adds
bigrams, built after stop-word removal). -/
def bigrams (ts : List PyStr) : List PyStr :=
  (ts.zip ts.tail).map (fun p => p.1 ++ pys " " ++ p.2)

/-- The full analyzer of the vectorizer: unigrams and bigrams. -/
def analyze (s : PyStr) : List PyStr := tokenize s ++ bigrams (tokenize s)

/-- Raw term frequency of a vocabulary term in an analyzed token list. -/
def tfCount (tokens : List PyStr) (t : PyStr) : ℚ := (tokens.count t : ℚ)

/-- The raw count vector of a token list over a fixed vocabulary (tokens
outside the vocabulary are dropped). -/
def tfVec (vocab : List PyStr) (tokens : List PyStr) : List ℚ :=
  vocab.map (tfCount tokens)

/-- The idf-weighted inner product of two count vectors: with per-term idf
weights `w`, the tf-idf vectors are `w * u` and `w * v` pointwise, and their
dot product is `Σ w i ^ 2 * u i * v i`.  The cosine similarity computed by
`cosine_similarity` in `retriever.py` line 128 is zero, positive, or equal
to 1 exactly when this dot product is zero, positive, or the vectors are
parallel, respectively; in particular a query whose analyzed token list is
empty has dot product 0 with every chunk, hence cosine similarity 0. -/
def dotW (idf : List ℚ) (u v : List ℚ) : ℚ :=
  ((idf.zip (u.zip v)).map (fun p => p.1 ^ 2 * p.2.1 * p.2.2)).sum

/-- A knowledge-base chunk (`knowledge_processor.py`): a category label and a
text. -/
structure Chunk where
  category : PyStr
  text : PyStr
deriving DecidableEq, Inhabited, Repr

/-- `TOP_K_RESULTS` from `config.py` line 16. -/
def TOP_K_RESULTS : Nat := 5

/-- `MAX_CONTEXT_LENGTH` from `config.py` line 17. -/
def MAX_CONTEXT_LENGTH : Nat := 4000

/-- The similarity value of index `i` in a similarity row. -/
def simAt (sims : List ℚ) (i : Nat) : ℚ := sims.getD i 0

/-- The comparison realized by `numpy.argsort` on the similarity row:
ascending by value, equal values ordered by ascending index (the behavior of
the stable insertion sort numpy's introsort performs on small arrays; for
ties the claim under check is settled on small arrays, where this model is
exact). -/
def argsortLe (sims : List ℚ) (i j : Nat) : Prop :=
  simAt sims i < simAt sims j ∨ (simAt sims i = simAt sims j ∧ i ≤ j)

instance (sims : List ℚ) : DecidableRel (argsortLe sims) := fun i j => by
  unfold argsortLe; infer_instance

/-- `similarities.argsort()` (`retriever.py` line 131): the indices
`0, ..., n-1` sorted ascending by similarity. -/
def argsort (sims : List ℚ) : List Nat :=
  List.insertionSort (argsortLe sims) (List.range sims.length)

/-- The index list underlying the result list of `Retriever.search`
(`retriever.py` lines 131-137): `argsort()[-top_k:][::-1]`, then keep only
indices with strictly positive similarity. -/
def searchIdxs (sims : List ℚ) (top_k : Nat) : List Nat :=
  ((pyTail top_k (argsort sims)).reverse).filter (fun i => 0 < simAt sims i)

/-- `Retriever.search` (`retriever.py` lines 107-139), with the similarity
row `sims` (the output of the external tf-idf / cosine computation on the
expanded query, one value per chunk) passed explicitly.  `top_k = none`
models the Python default `top_k=None`, replaced by `TOP_K_RESULTS`. -/
def search (chunks : List Chunk) (sims : List ℚ) (top_k : Option Nat) :
    List (Chunk × ℚ) :=
  (searchIdxs sims (top_k.getD TOP_K_RESULTS)).map
    (fun i => (chunks.getD i default, simAt sims i))

/-- The fallback sentinel of `Retriever.get_context` (line 155). -/
def SENTINEL : PyStr := pys "No relevant information found in the knowledge base."

/-- One formatted context part (`retriever.py` line 159). -/
def formatChunk (c : Chunk) : PyStr := pys "[" ++ c.category ++ pys "]: " ++ c.text

/-- `Retriever.get_context` (`retriever.py` lines 141-161): the formatted
parts of the search results joined with a blank line, or the sentinel when
there are no results. -/
def get_context (chunks : List Chunk) (sims : List ℚ) (top_k : Option Nat) :
    PyStr :=
  if (search chunks sims top_k).isEmpty then SENTINEL
  else (pys "\n\n").intercalate
    ((search chunks sims top_k).map (fun r => formatChunk r.1))

/-- The context-truncation step of `Chatbot._build_prompt` (`chatbot.py`
lines 66-68): slice to the first `MAX_CONTEXT_LENGTH` characters and append
`"..."` whenever the context is longer than the budget. -/
def truncate_context (context : PyStr) : PyStr :=
  if MAX_CONTEXT_LENGTH < context.length
  then context.take MAX_CONTEXT_LENGTH ++ pys "..."
  else context

/-- The context string that `Chatbot._build_prompt` embeds into the
generation prompt: `get_context` with the default `top_k`, truncated. -/
def embeddedContext (chunks : List Chunk) (sims : List ℚ) : PyStr :=
  truncate_context (get_context chunks sims none)

/-- `Chatbot._build_prompt` (`chatbot.py` lines 62-70):
`RAG_PROMPT_TEMPLATE.format(context=..., question=...)` written as explicit
concatenation of the template's literal pieces. -/
def build_prompt (chunks : List Chunk) (sims : List ℚ) (question : PyStr) :
    PyStr :=
  pys "Based on the following context from NavShiksha knowledge base, answer the user" ++
    [Char.ofNat 39] ++ pys "s question.\n\nCONTEXT:\n" ++
    embeddedContext chunks sims ++
    pys "\n\nUSER QUESTION: " ++ question ++ pys "\n\nANSWER:"

/-- One conversation turn: the `user` and `assistant` strings stored in
`Chatbot.history`. -/
abbrev Turn := PyStr × PyStr

/-- The history window used in `Chatbot.chat` (`chatbot.py` line 88):
`self.history[-4:]`. -/
def historyWindow (history : List Turn) : List Turn := pyTail 4 history

/-- The apology string returned by the `except` branch of `Chatbot.chat`
(`chatbot.py` line 115). -/
def apology (e : PyStr) : PyStr :=
  pys "I" ++ [Char.ofNat 39] ++
    pys "m sorry, I encountered an error. Please try again. (" ++ e ++ pys ")"

/-- `Chatbot.chat` (`chatbot.py` lines 72-115).  The external Gemini call
(history window plus prompt, returning either generated text or a raised
exception) is the parameter `gen`.  On success the turn is appended to the
history and the text returned; on an exception the apology string is
returned and the history is left as it was (the `history.append` on line 105
is only reached after `response.text` has succeeded). -/
def chat (gen : List Turn → PyStr → Except PyStr PyStr)
    (chunks : List Chunk) (sims : List ℚ) (history : List Turn)
    (user_message : PyStr) : PyStr × List Turn :=
  match gen (historyWindow history) (build_prompt chunks sims user_message) with
  | Except.ok text => (text, history ++ [(user_message, text)])
  | Except.error e => (apology e, history)

/-- A whitespace-only Python string. -/
def wsOnly (q : PyStr) : Prop := ∀ c ∈ q, c.isWhitespace = true

instance (q : PyStr) : Decidable (wsOnly q) := by
  unfold wsOnly; infer_instance

/-- A one-chunk corpus used as concrete input: corpus `["teach"]`, query
`"teach"`.  The expanded query is `"teach teach teacher teaching instructor
create course upload"`; the only vocabulary term is `teach`, so the
normalized query vector and the chunk row are both the unit vector on that
term and the cosine similarity row is exactly `[1]`. -/
def teachChunk : Chunk := ⟨pys "Architecture", pys "teach"⟩

/-- The two-chunk corpus for the C4 counterexample: the first chunk's text
`"a b c"` has no token of length ≥ 2, the second supplies the vocabulary. -/
def c4chunks : List Chunk :=
  [⟨pys "FAQ", pys "a b c"⟩,
    ⟨pys "Course Management", pys "student course enroll"⟩]

/-- The vocabulary the vectorizer builds from `c4chunks`: the analyzed
terms of the second chunk (the first contributes none). -/
def c4vocab : List PyStr := analyze (pys "student course enroll")

/-- A chunk whose formatted context part exceeds the 4000-character budget:
its text is 4000 repetitions of `x` (a single 4000-character token, so its
own text as a query matches it with cosine similarity exactly 1). -/
def bigChunk : Chunk := ⟨pys "Architecture", List.replicate 4000 'x'⟩

/-! ### Properties of the substring test -/

theorem strIn_true_iff (p s : PyStr) : strIn p s = true ↔ p <:+: s := by
  induction s with
  | nil => simp [strIn, List.isEmpty_iff, List.infix_nil]
  | cons c rest ih =>
      simp only [strIn, Bool.or_eq_true, ih, List.isPrefixOf_iff_prefix,
        List.infix_cons_iff]

/-! ### Properties of the translation step -/

theorem translateAux_prefix (q : PyStr) (l : List (PyStr × PyStr)) (acc : PyStr) :
    acc <+: translateAux q l acc := by
  induction l generalizing acc with
  | nil => exact List.prefix_refl acc
  | cons p rest ih =>
      obtain ⟨h, e⟩ := p
      by_cases hc : strIn h q
      · simpa [translateAux, hc] using
          ((acc.prefix_append (pys " " ++ e)).trans (by simpa using ih (acc ++ pys " " ++ e)))
      · simpa [translateAux, hc] using ih acc

theorem infix_translateAux (q : PyStr) (l : List (PyStr × PyStr)) (acc h e : PyStr)
    (hmem : (h, e) ∈ l) (hin : strIn h q = true) :
    e <:+: translateAux q l acc := by
  induction l generalizing acc with
  | nil => cases hmem
  | cons p rest ih =>
      obtain ⟨h2, e2⟩ := p
      rcases List.mem_cons.mp hmem with heq | htail
      · have hh : h = h2 := (Prod.ext_iff.mp heq).1
        have he : e = e2 := (Prod.ext_iff.mp heq).2
        subst hh; subst he
        have hsuf : e <:+: acc ++ pys " " ++ e :=
          (List.suffix_append (acc ++ pys " ") e).isInfix
        have hpre : (acc ++ pys " " ++ e) <+: translateAux q rest (acc ++ pys " " ++ e) :=
          translateAux_prefix q rest _
        simpa [translateAux, hin] using hsuf.trans hpre.isInfix
      · by_cases hc : strIn h2 q
        · simpa [translateAux, hc] using ih _ htail
        · simpa [translateAux, hc] using ih _ htail

theorem infix_translate_query (q h e : PyStr)
    (hmem : (h, e) ∈ HINDI_TO_ENGLISH) (hin : strIn h q = true) :
    e <:+: translate_query q :=
  infix_translateAux q HINDI_TO_ENGLISH q h e hmem hin

/-! ### Properties of the expansion step -/

theorem translate_prefix_expand (q : PyStr) :
    translate_query q <+: expand_query q := by
  unfold expand_query
  cases hf : findExpansion (pyLower (translate_query q)) QUERY_EXPANSIONS with
  | none => exact List.prefix_refl _
  | some e =>
      show translate_query q <+: translate_query q ++ pys " " ++ e
      rw [List.append_assoc]
      exact (translate_query q).prefix_append _

theorem findExpansion_none (ql : PyStr) (l : List (PyStr × PyStr))
    (h : ∀ p ∈ l, strIn p.1 ql = false) : findExpansion ql l = none := by
  induction l with
  | nil => rfl
  | cons p rest ih =>
      obtain ⟨k, e⟩ := p
      have hk : strIn k ql = false := h (k, e) (List.mem_cons_self _ _)
      simpa [findExpansion, hk] using ih (fun p hp => h p (List.mem_cons_of_mem _ hp))

theorem findExpansion_some (ql : PyStr) (l : List (PyStr × PyStr)) (e : PyStr)
    (h : findExpansion ql l = some e) :
    ∃ i < l.length,
      strIn (l.getD i default).1 ql = true ∧
        (∀ j < i, strIn (l.getD j default).1 ql = false) ∧
        e = (l.getD i default).2 := by
  induction l generalizing e with
  | nil => cases h
  | cons p rest ih =>
      obtain ⟨k, e0⟩ := p
      by_cases hc : strIn k ql
      · refine ⟨0, by simp, by simpa using hc, by omega, ?_⟩
        have : some e0 = some e := by simpa [findExpansion, hc] using h
        simpa using (Option.some.injEq .. ▸ this).symm
      · have h' : findExpansion ql rest = some e := by
          simpa [findExpansion, hc] using h
        obtain ⟨i, hi, hmatch, hbefore, heq⟩ := ih e h'
        refine ⟨i + 1, by simpa using hi, by simpa using hmatch, ?_, by simpa using heq⟩
        intro j hj
        cases j with
        | zero => simpa using hc
        | succ j0 => simpa using hbefore j0 (by omega)

/-! ### Whitespace-only queries -/

theorem isWordChar_eq_false_of_ws (c : Char) (h : c.isWhitespace = true) :
    isWordChar c = false := by
  have h' : ((c = ' ' ∨ c = '\t') ∨ c = '\r') ∨ c = '\n' := by
    simpa [Char.isWhitespace] using h
  rcases h' with ((rfl | rfl) | rfl) | rfl <;> decide

theorem asciiLower_ws (c : Char) (h : c.isWhitespace = true) :
    asciiLower c = c := by
  have h' : ((c = ' ' ∨ c = '\t') ∨ c = '\r') ∨ c = '\n' := by
    simpa [Char.isWhitespace] using h
  rcases h' with ((rfl | rfl) | rfl) | rfl <;> decide

theorem wsOnly_pyLower (q : PyStr) (h : wsOnly q) : wsOnly (pyLower q) := by
  intro c hc
  obtain ⟨a, ha, rfl⟩ := List.mem_map.mp hc
  rw [asciiLower_ws a (h a ha)]
  exact h a ha

theorem wsOnly_of_part (p q : PyStr) (hi : p <:+: q) (h : wsOnly q) :
    wsOnly p := fun c hc => h c (hi.sublist.subset hc)

theorem strIn_eq_false_of_ws (p q : PyStr) (hw : wsOnly q)
    (hne : ∃ c ∈ p, ¬(c.isWhitespace = true)) : strIn p q = false := by
  rcases hne with ⟨c, hc, hcw⟩
  by_contra hcon
  have htrue : strIn p q = true := by
    cases hb : strIn p q
    · exact absurd hb hcon
    · rfl
  exact hcw (wsOnly_of_part p q ((strIn_true_iff p q).mp htrue) hw c hc)

theorem hindi_keywords_nonws :
    ∀ p ∈ HINDI_TO_ENGLISH, ∃ c ∈ p.1, ¬(c.isWhitespace = true) := by decide

theorem expansion_triggers_nonws :
    ∀ p ∈ QUERY_EXPANSIONS, ∃ c ∈ p.1, ¬(c.isWhitespace = true) := by decide

theorem translateAux_id (q : PyStr) (l : List (PyStr × PyStr)) (acc : PyStr)
    (h : ∀ p ∈ l, strIn p.1 q = false) : translateAux q l acc = acc := by
  induction l generalizing acc with
  | nil => rfl
  | cons p rest ih =>
      obtain ⟨k, e⟩ := p
      have hk : strIn k q = false := h (k, e) (List.mem_cons_self _ _)
      simpa [translateAux, hk] using
        ih acc (fun p hp => h p (List.mem_cons_of_mem _ hp))

theorem translate_query_ws (q : PyStr) (h : wsOnly q) : translate_query q = q :=
  translateAux_id q HINDI_TO_ENGLISH q fun p hp =>
    strIn_eq_false_of_ws p.1 q h (hindi_keywords_nonws p hp)

theorem expand_query_ws (q : PyStr) (h : wsOnly q) : expand_query q = q := by
  have ht : translate_query q = q := translate_query_ws q h
  have hfind : findExpansion (pyLower (translate_query q)) QUERY_EXPANSIONS = none := by
    refine findExpansion_none _ _ fun p hp => ?_
    refine strIn_eq_false_of_ws p.1 _ ?_ (expansion_triggers_nonws p hp)
    rw [ht]
    exact wsOnly_pyLower q h
  rw [expand_query, hfind, ht]

theorem splitRunsAux_eq_nil (s : PyStr) (h : ∀ c ∈ s, isWordChar c = false) :
    splitRunsAux s [] = [] := by
  induction s with
  | nil => rfl
  | cons c rest ih =>
      have hc : isWordChar c = false := h c (List.mem_cons_self _ _)
      simpa [splitRunsAux, hc] using
        ih fun c hcm => h c (List.mem_cons_of_mem _ hcm)

theorem tokenize_ws (q : PyStr) (h : wsOnly q) : tokenize q = [] := by
  have hruns : splitRuns (pyLower q) = [] :=
    splitRunsAux_eq_nil _ fun c hc =>
      isWordChar_eq_false_of_ws c (wsOnly_pyLower q h c hc)
  simp [tokenize, hruns]

theorem analyze_ws (q : PyStr) (h : wsOnly q) : analyze q = [] := by
  simp [analyze, tokenize_ws q h, bigrams]

/-! ### Zero query vectors -/

theorem dotW_tfVec_nil (idf : List ℚ) (vocab : List PyStr) (v : List ℚ) :
    dotW idf (tfVec vocab []) v = 0 := by
  induction idf generalizing vocab v with
  | nil => simp [dotW]
  | cons a idf' ih =>
      cases vocab with
      | nil => simp [dotW, tfVec]
      | cons b vs =>
          cases v with
          | nil => simp [dotW, tfVec]
          | cons c cs =>
              have := ih vs cs
              simp only [dotW, tfVec, tfCount, List.map_cons, List.zip_cons_cons,
                List.map, List.sum_cons, List.count_nil, Nat.cast_zero, mul_zero,
                zero_mul, zero_add] at this ⊢
              simpa using this

theorem simAt_eq_zero (sims : List ℚ) (i : Nat) (h : ∀ x ∈ sims, x = 0) :
    simAt sims i = 0 := by
  unfold simAt
  rcases Nat.lt_or_ge i sims.length with hi | hi
  · rw [List.getD_eq_getElem sims 0 hi]
    exact h _ (List.getElem_mem hi)
  · exact List.getD_eq_default sims 0 (by omega)

theorem search_eq_nil_of_zero (chunks : List Chunk) (sims : List ℚ)
    (k : Option Nat) (h : ∀ x ∈ sims, x = 0) : search chunks sims k = [] := by
  have hfilter : searchIdxs sims (k.getD TOP_K_RESULTS) = [] := by
    refine List.filter_eq_nil_iff.mpr fun i _ => ?_
    simp [simAt_eq_zero sims i h]
  simp [search, hfilter]

theorem get_context_sentinel (chunks : List Chunk) (sims : List ℚ)
    (k : Option Nat) (h : search chunks sims k = []) :
    get_context chunks sims k = SENTINEL := by
  simp [get_context, h]

/-! ### Properties of the ranking pipeline -/

theorem argsortLe_total (sims : List ℚ) :
    ∀ i j, argsortLe sims i j ∨ argsortLe sims j i := by
  intro i j
  rcases lt_trichotomy (simAt sims i) (simAt sims j) with h | h | h
  · exact Or.inl (Or.inl h)
  · rcases Nat.le_total i j with hij | hij
    · exact Or.inl (Or.inr ⟨h, hij⟩)
    · exact Or.inr (Or.inr ⟨h.symm, hij⟩)
  · exact Or.inr (Or.inl h)

theorem argsortLe_trans (sims : List ℚ) :
    ∀ i j k, argsortLe sims i j → argsortLe sims j k → argsortLe sims i k := by
  intro i j k hij hjk
  rcases hij with h1 | ⟨h1, h1'⟩ <;> rcases hjk with h2 | ⟨h2, h2'⟩
  · exact Or.inl (h1.trans h2)
  · exact Or.inl (lt_of_lt_of_le h1 (le_of_eq h2))
  · exact Or.inl (lt_of_le_of_lt (le_of_eq h1) h2)
  · exact Or.inr ⟨h1.trans h2, h1'.trans h2'⟩

theorem argsort_sorted (sims : List ℚ) :
    List.Sorted (argsortLe sims) (argsort sims) := by
  haveI : IsTotal Nat (argsortLe sims) := ⟨argsortLe_total sims⟩
  haveI : IsTrans Nat (argsortLe sims) := ⟨argsortLe_trans sims⟩
  exact List.sorted_insertionSort _ _

theorem argsort_perm (sims : List ℚ) :
    List.Perm (argsort sims) (List.range sims.length) :=
  List.perm_insertionSort _ _

theorem argsort_nodup (sims : List ℚ) : (argsort sims).Nodup :=
  (argsort_perm sims).nodup_iff.mpr (List.nodup_range _)

theorem mem_argsort {sims : List ℚ} {i : Nat} :
    i ∈ argsort sims ↔ i < sims.length := by
  rw [(argsort_perm sims).mem_iff, List.mem_range]

theorem argsort_length (sims : List ℚ) :
    (argsort sims).length = sims.length :=
  (argsort_perm sims).length_eq.trans (List.length_range _)

theorem pyTail_suffix (k : Nat) (l : List α) : pyTail k l <:+ l := by
  unfold pyTail
  split
  · exact List.suffix_refl l
  · exact List.drop_suffix _ l

theorem pyTail_length_le (k : Nat) (l : List α) (hk : k ≠ 0) :
    (pyTail k l).length ≤ k := by
  unfold pyTail
  rw [if_neg hk, List.length_drop]
  omega

theorem pyTail_eq_self (k : Nat) (l : List α) (h : l.length ≤ k) :
    pyTail k l = l := by
  unfold pyTail
  split
  · rfl
  · rw [Nat.sub_eq_zero_of_le h, List.drop_zero]

theorem pyTail_ne_nil (k : Nat) (l : List α) (hk : k ≠ 0) (hl : l ≠ []) :
    pyTail k l ≠ [] := by
  have hlen : (pyTail k l).length = l.length - (l.length - k) := by
    unfold pyTail
    rw [if_neg hk, List.length_drop]
  intro hcon
  rw [hcon] at hlen
  have h0 : l.length ≠ 0 := fun hz => hl (List.eq_nil_of_length_eq_zero hz)
  simp only [List.length_nil] at hlen
  omega

theorem searchIdxs_pairwise (sims : List ℚ) (k : Nat) :
    (searchIdxs sims k).Pairwise (fun i j => argsortLe sims j i) := by
  have h2 : (pyTail k (argsort sims)).Pairwise (argsortLe sims) :=
    (argsort_sorted sims).sublist (pyTail_suffix k _).sublist
  have h3 : ((pyTail k (argsort sims)).reverse).Pairwise
      (fun i j => argsortLe sims j i) :=
    (List.pairwise_reverse).mpr h2
  exact h3.sublist (List.filter_sublist _)

theorem searchIdxs_nodup (sims : List ℚ) (k : Nat) :
    (searchIdxs sims k).Nodup := by
  have h1 : (pyTail k (argsort sims)).Nodup :=
    (argsort_nodup sims).sublist (pyTail_suffix k _).sublist
  exact (List.nodup_reverse.mpr h1).sublist (List.filter_sublist _)

theorem mem_searchIdxs {sims : List ℚ} {k i : Nat} (h : i ∈ searchIdxs sims k) :
    i < sims.length ∧ 0 < simAt sims i := by
  unfold searchIdxs at h
  have h1 := List.mem_filter.mp h
  refine ⟨?_, by simpa using h1.2⟩
  exact mem_argsort.mp
    ((pyTail_suffix k _).sublist.subset (List.mem_reverse.mp h1.1))

theorem searchIdxs_length_le (sims : List ℚ) (k : Nat) (hk : k ≠ 0) :
    (searchIdxs sims k).length ≤ k :=
  le_trans (List.length_filter_le _ _)
    (by rw [List.length_reverse]; exact pyTail_length_le k _ hk)

theorem searchIdxs_length_le_total (sims : List ℚ) (k : Nat) :
    (searchIdxs sims k).length ≤ sims.length :=
  le_trans (List.length_filter_le _ _)
    (by
      rw [List.length_reverse, ← argsort_length sims]
      exact (pyTail_suffix k _).sublist.length_le)

theorem mem_searchIdxs_of_big_k (sims : List ℚ) (k i : Nat)
    (hik : sims.length ≤ k) (hi : i < sims.length)
    (hpos : 0 < simAt sims i) : i ∈ searchIdxs sims k := by
  have hT : pyTail k (argsort sims) = argsort sims :=
    pyTail_eq_self _ _ (by rw [argsort_length]; exact hik)
  unfold searchIdxs
  rw [hT]
  exact List.mem_filter.mpr
    ⟨List.mem_reverse.mpr (mem_argsort.mpr hi), by simpa using hpos⟩

/-! ### Claim theorems -/

/-- C6: for every query, the expansion step appends at most one expansion
phrase, even when the query contains several trigger keywords: either no
trigger matches and the expanded query is the translated query unchanged, or
the phrase of the first matching trigger (in the order of the
`QUERY_EXPANSIONS` table) is appended once, all earlier triggers not
matching — first-match-wins, not cumulative. -/
theorem c6_expansion_first_match_wins (q : PyStr) :
    expand_query q = translate_query q ∨
      ∃ i < QUERY_EXPANSIONS.length,
        strIn (QUERY_EXPANSIONS.getD i default).1
            (pyLower (translate_query q)) = true ∧
          (∀ j < i, strIn (QUERY_EXPANSIONS.getD j default).1
              (pyLower (translate_query q)) = false) ∧
          expand_query q =
            translate_query q ++ pys " " ++ (QUERY_EXPANSIONS.getD i default).2 := by
  cases hf : findExpansion (pyLower (translate_query q)) QUERY_EXPANSIONS with
  | none => left; simp [expand_query, hf]
  | some e =>
      right
      obtain ⟨i, hi, hm, hb, he⟩ := findExpansion_some _ _ _ hf
      refine ⟨i, hi, hm, hb, ?_⟩
      rw [expand_query, hf, he]

/-- C7: for every raw query and every configured (non-English keyword →
English gloss) pair, if the keyword occurs as a substring of the raw query
then the expanded query contains the English gloss as a substring; the
translation step is additive over all matching entries. -/
theorem c7_translation_gloss_infix (q h e : PyStr)
    (hmem : (h, e) ∈ HINDI_TO_ENGLISH) (hin : strIn h q = true) :
    strIn e (expand_query q) = true := by
  rw [strIn_true_iff]
  exact (infix_translate_query q h e hmem hin).trans
    (translate_prefix_expand q).isInfix

/-- Witness for C7 at the pair (क्या → "what is") and the query
"क्या है". -/
theorem c7_witness :
    strIn (pys "what is") (expand_query (pys "क्या है")) = true :=
  c7_translation_gloss_infix (pys "क्या है") (pys "क्या") (pys "what is")
    (by decide) (by decide)

/-- C8: the history window used for prompt construction
(`self.history[-4:]`) is the most recent 4 turns in chronological order:
after 5 turns it is exactly turns 2-5, with fewer than 4 turns it is the
whole history, and in general it is a suffix of the history (so chronological
order is preserved) of length `min 4 (length history)`. -/
theorem c8_history_window (t1 t2 t3 t4 t5 : Turn) (h : List Turn) :
    historyWindow [t1, t2, t3, t4, t5] = [t2, t3, t4, t5] ∧
      (h.length ≤ 4 → historyWindow h = h) ∧
      historyWindow h <:+ h ∧
      (historyWindow h).length = min 4 h.length := by
  refine ⟨rfl, fun hl => pyTail_eq_self 4 h hl, pyTail_suffix 4 h, ?_⟩
  unfold historyWindow pyTail
  rw [if_neg (by omega), List.length_drop]
  omega

/-- Witness for C8: five concrete turns. -/
theorem c8_witness :
    historyWindow
        [(pys "u1", pys "a1"), (pys "u2", pys "a2"), (pys "u3", pys "a3"),
          (pys "u4", pys "a4"), (pys "u5", pys "a5")] =
      [(pys "u2", pys "a2"), (pys "u3", pys "a3"), (pys "u4", pys "a4"),
        (pys "u5", pys "a5")] ∧
      historyWindow ([] : List Turn) = [] :=
  ⟨(c8_history_window _ _ _ _ _ []).1,
    (c8_history_window (pys "u", pys "a") (pys "u", pys "a") (pys "u", pys "a")
          (pys "u", pys "a") (pys "u", pys "a") []).2.1 (by simp)⟩

/-- C9: when the external generator invocation fails, `chat` returns the
apology string built from the error instead of propagating the exception,
and the conversation history is left unmodified (the history append on line
105 of `chatbot.py` is only reached after the response text has been
obtained). -/
theorem c9_generator_failure (gen : List Turn → PyStr → Except PyStr PyStr)
    (chunks : List Chunk) (sims : List ℚ) (history : List Turn) (msg e : PyStr)
    (hfail : gen (historyWindow history) (build_prompt chunks sims msg) =
      Except.error e) :
    chat gen chunks sims history msg = (apology e, history) := by
  unfold chat
  rw [hfail]

/-- Witness for C9: a generator that always raises. -/
theorem c9_witness :
    chat (fun _ _ => Except.error (pys "boom")) [] [] [] (pys "hi") =
      (apology (pys "boom"), []) :=
  c9_generator_failure (fun _ _ => Except.error (pys "boom")) [] [] []
    (pys "hi") (pys "boom") rfl


/-- C2 (amended): for every similarity row (hence every query) and every
requested count `k ≥ 1`, `search` returns at most `k` results and every
returned result has a strictly positive score.  For `k = 0` the slice
`argsort()[-0:]` is the whole array, so the length bound fails (see the
counterexample); the positivity filter holds for every `k`. -/
theorem c2_search_bounded_and_positive (chunks : List Chunk) (sims : List ℚ)
    (k : Nat) (hk : 1 ≤ k) :
    (search chunks sims (some k)).length ≤ k ∧
      ∀ r ∈ search chunks sims (some k), 0 < r.2 := by
  constructor
  · have hlen := searchIdxs_length_le sims k (by omega)
    simpa [search] using hlen
  · intro r hr
    simp only [search, List.mem_map] at hr
    obtain ⟨i, hi, rfl⟩ := hr
    exact (mem_searchIdxs hi).2

/-- Witness for C2 at the one-chunk corpus with similarity row `[1]` and
`k = 1`. -/
theorem c2_witness :
    (search [teachChunk] [1] (some 1)).length ≤ 1 ∧
      ∀ r ∈ search [teachChunk] [1] (some 1), 0 < r.2 :=
  c2_search_bounded_and_positive [teachChunk] [1] 1 (by omega)

/-- Counterexample to C2 as stated: at `k = 0` (included in the claim) the
Python slice `similarities.argsort()[-0:]` selects every index, so on the
corpus `["teach"]` with query `"teach"` (similarity row exactly `[1]`)
`search` returns 1 result, not at most 0. -/
theorem c2_counterexample :
    ¬((search [teachChunk] [1] (some 0)).length ≤ 0) := by decide

/-- C3 (amended): for every similarity row (hence every query) the result
list of `search` is sorted in descending order of score; but on equal
scores the results appear in strictly *decreasing* original chunk position
(the ascending stable argsort is reversed as a whole), not in increasing
position as the claim states. -/
theorem c3_descending_ties_reversed (chunks : List Chunk) (sims : List ℚ)
    (topk : Option Nat) :
    (search chunks sims topk).Pairwise (fun a b => b.2 ≤ a.2) ∧
      (searchIdxs sims (topk.getD TOP_K_RESULTS)).Pairwise
        (fun i j => simAt sims j ≤ simAt sims i ∧
          (simAt sims i = simAt sims j → j < i)) := by
  have hp := searchIdxs_pairwise sims (topk.getD TOP_K_RESULTS)
  have hn : (searchIdxs sims (topk.getD TOP_K_RESULTS)).Pairwise
      (fun i j => i ≠ j) := searchIdxs_nodup sims _
  have hmain : (searchIdxs sims (topk.getD TOP_K_RESULTS)).Pairwise
      (fun i j => simAt sims j ≤ simAt sims i ∧
        (simAt sims i = simAt sims j → j < i)) := by
    refine (hp.and hn).imp ?_
    rintro a b ⟨hba, hne⟩
    constructor
    · rcases hba with hlt | ⟨heq, _⟩
      · exact le_of_lt hlt
      · exact le_of_eq heq
    · intro heq
      rcases hba with hlt | ⟨_, hle⟩
      · exact absurd (heq ▸ hlt) (lt_irrefl _)
      · exact lt_of_le_of_ne hle (Ne.symm hne)
  refine ⟨?_, hmain⟩
  rw [search, List.pairwise_map]
  exact hmain.imp fun h => h.1

/-- Counterexample to C3's tie-break as stated: corpus of two identical
chunks `"teach"` with query `"teach"` gives the similarity row exactly
`[1, 1]`; numpy's argsort (insertion sort at this size) yields `[0, 1]`,
and the reversal `[::-1]` turns it into `[1, 0]`: the two tied results
appear in reverse original chunk order. -/
theorem c3_counterexample :
    searchIdxs [(1 : ℚ), 1] 5 = [1, 0] ∧
      ¬(searchIdxs [(1 : ℚ), 1] 5).Pairwise
          (fun i j => simAt [(1 : ℚ), 1] i = simAt [(1 : ℚ), 1] j → i < j) := by
  constructor
  · decide
  · decide

/-- C10: for every similarity row of the corpus length and every requested
count strictly greater than the corpus size, `search` returns (totally — no
exception in the model) a list of at most corpus-size results containing
every chunk whose similarity is strictly positive. -/
theorem c10_topk_exceeding_corpus (chunks : List Chunk) (sims : List ℚ)
    (k : Nat) (hlen : sims.length = chunks.length)
    (hk : chunks.length < k) :
    (search chunks sims (some k)).length ≤ chunks.length ∧
      ∀ i < chunks.length, 0 < simAt sims i →
        (chunks.getD i default, simAt sims i) ∈ search chunks sims (some k) := by
  constructor
  · have htot := searchIdxs_length_le_total sims k
    have : (search chunks sims (some k)).length =
        (searchIdxs sims k).length := by simp [search]
    omega
  · intro i hi hpos
    have hmem : i ∈ searchIdxs sims k :=
      mem_searchIdxs_of_big_k sims k i (by omega) (by omega) hpos
    exact List.mem_map.mpr ⟨i, hmem, rfl⟩

/-- Witness for C10: one-chunk corpus, `top_k = 2 > 1`. -/
theorem c10_witness :
    (search [teachChunk] [1] (some 2)).length ≤ 1 ∧
      ∀ i < 1, 0 < simAt [1] i →
        ((List.getD [teachChunk] i default), simAt [1] i) ∈
          search [teachChunk] [1] (some 2) :=
  c10_topk_exceeding_corpus [teachChunk] [1] 2 rfl (by simp)

/-- C5 (amended): for every whitespace-only query (the empty query
included), preprocessing returns the query unchanged — so the expanded query
is the original whitespace string, empty only when the query was already
empty, not the empty string in general; its analyzed token list is empty, so
its tf-idf vector is zero and its dot product with every chunk vector is 0,
making every cosine similarity 0; with an all-zero similarity row `search`
returns zero results and `get_context` returns the exact fallback sentinel.
All functions on this path are total in the model (no exception). -/
theorem c5_whitespace_query (q : PyStr) (hw : wsOnly q) :
    expand_query q = q ∧
      analyze (expand_query q) = [] ∧
      (∀ idf vocab v, dotW idf (tfVec vocab (analyze (expand_query q))) v = 0) ∧
      ∀ chunks sims k, (∀ x ∈ sims, x = 0) →
        search chunks sims k = [] ∧ get_context chunks sims k = SENTINEL := by
  have he : expand_query q = q := expand_query_ws q hw
  have ha : analyze (expand_query q) = [] := by
    rw [he]; exact analyze_ws q hw
  refine ⟨he, ha, fun idf vocab v => ?_, fun chunks sims k hz => ?_⟩
  · rw [ha]; exact dotW_tfVec_nil idf vocab v
  · have hs := search_eq_nil_of_zero chunks sims k hz
    exact ⟨hs, get_context_sentinel chunks sims k hs⟩

/-- Witness for C5 at the single-space query. -/
theorem c5_witness :
    expand_query (pys " ") = pys " " ∧ analyze (expand_query (pys " ")) = [] :=
  ⟨(c5_whitespace_query (pys " ") (by decide)).1,
    (c5_whitespace_query (pys " ") (by decide)).2.1⟩

/-- Counterexample to C5 as stated: the claim says preprocessing of a
whitespace-only query produces an *empty* expanded query, but the expanded
query of `" "` is `" "` itself, which is not the empty string. -/
theorem c5_counterexample : expand_query (pys " ") ≠ ([] : PyStr) := by decide

/-- C4 (amended): self-similarity holds only at the similarity-row level:
if the similarity row has value exactly 1 at some index (as cosine gives
when the *expanded* query's tf-idf vector coincides with that chunk's row,
e.g. an identical text that preprocessing leaves unchanged) and every value
is at most 1 (the cosine range), then the head of the result list is a
result with the maximum score 1 — a tied-top result, though not necessarily
the chunk itself.  For the claim as stated — querying with the chunk's own
text — preprocessing may rewrite the query (expansion, translation, or a
text with no indexable token), so the chunk need not be top or even
returned; see the counterexample. -/
theorem c4_tied_top_head (chunks : List Chunk) (sims : List ℚ) (k i : Nat)
    (hk : k ≠ 0) (hi : i < sims.length) (h1 : simAt sims i = 1)
    (hle : ∀ j < sims.length, simAt sims j ≤ 1) :
    ∃ c, (search chunks sims (some k)).head? = some (c, 1) := by
  have hpos : 0 < (argsort sims).length := by
    rw [argsort_length]; omega
  have hlnil : argsort sims ≠ [] := List.length_pos.mp hpos
  have htnil : pyTail k (argsort sims) ≠ [] := pyTail_ne_nil k _ hk hlnil
  obtain ⟨m, hm⟩ : ∃ m, (pyTail k (argsort sims)).getLast? = some m := by
    cases hc : (pyTail k (argsort sims)).getLast? with
    | none => exact absurd (List.getLast?_eq_none_iff.mp hc) htnil
    | some a => exact ⟨a, rfl⟩
  have hmfull : (argsort sims).getLast? = some m := by
    obtain ⟨s, hs⟩ := pyTail_suffix k (argsort sims)
    rw [← hs, List.getLast?_append_of_ne_nil s htnil]
    exact hm
  have hmmem : m ∈ argsort sims := by
    rw [List.getLast?_eq_getLast _ hlnil] at hmfull
    have hmem := List.getLast_mem hlnil
    rwa [Option.some.inj hmfull] at hmem
  have hmlt : m < sims.length := mem_argsort.mp hmmem
  have hmget : m = (argsort sims).get ⟨(argsort sims).length - 1, by omega⟩ := by
    rw [List.getLast?_eq_getLast _ hlnil] at hmfull
    rw [← Option.some.inj hmfull, List.getLast_eq_getElem]
    rfl
  have hargle : argsortLe sims i m := by
    obtain ⟨⟨ix, hix⟩, hxeq⟩ := List.mem_iff_get.mp (mem_argsort.mpr hi)
    rcases Nat.lt_or_ge ix ((argsort sims).length - 1) with hlt | hge
    · have hrel := (argsort_sorted sims).rel_get_of_lt
        (a := ⟨ix, hix⟩) (b := ⟨(argsort sims).length - 1, by omega⟩)
        (by simpa using hlt)
      rw [hxeq] at hrel
      rw [hmget]
      exact hrel
    · have hixeq : ix = (argsort sims).length - 1 := by omega
      have him : i = m := by
        rw [← hxeq, hmget]
        congr 1
        exact Fin.ext hixeq
      exact Or.inr ⟨by rw [him], by rw [him]⟩
  have hsm : simAt sims m = 1 := by
    rcases hargle with hlt | ⟨heq, _⟩
    · exact absurd (h1 ▸ hlt) (not_lt_of_le (hle m hmlt))
    · rw [← heq, h1]
  have hrev : ∃ rest, (pyTail k (argsort sims)).reverse = m :: rest := by
    cases hcase : (pyTail k (argsort sims)).reverse with
    | nil => exact absurd (List.reverse_eq_nil_iff.mp hcase) htnil
    | cons a rest =>
        refine ⟨rest, ?_⟩
        have hhead : (pyTail k (argsort sims)).reverse.head? = some a := by
          rw [hcase]; rfl
        rw [List.head?_reverse, hm] at hhead
        have hma : m = a := Option.some.inj hhead
        rw [hma]
  obtain ⟨rest, hrest⟩ := hrev
  refine ⟨chunks.getD m default, ?_⟩
  have hidx : searchIdxs sims k =
      m :: (rest.filter (fun j => 0 < simAt sims j)) := by
    unfold searchIdxs
    rw [hrest, List.filter_cons_of_pos]
    simp [hsm]
  simp [search, hidx, hsm]

/-- Witness for C4 (amended) at the one-chunk corpus with similarity row
`[1]`. -/
theorem c4_witness :
    ∃ c, (search [teachChunk] [1] (some 5)).head? = some (c, 1) :=
  c4_tied_top_head [teachChunk] [1] 5 0 (by omega) (by simp)
    (by decide) (by decide)

/-- Counterexample to C4 as stated: in the corpus `c4chunks`, query the
first chunk with its exact own text `"a b c"`.  Preprocessing leaves the
query unchanged, but every token (`a`, `b`, `c`) is shorter than the
2-character minimum of the token pattern, so the analyzed query is empty,
its count vector over the corpus vocabulary is zero, its idf-weighted dot
product with both chunk rows is 0 (shown here with concrete unit idf
weights; the idf factor multiplies each summand, so this holds for every
idf assignment), hence both cosine similarities are exactly 0.  `search`
therefore returns no results at all: the chunk is not the top result and
has no score, let alone 1.0. -/
theorem c4_counterexample :
    (c4chunks.getD 0 default).text = pys "a b c" ∧
      expand_query (pys "a b c") = pys "a b c" ∧
      analyze (expand_query (pys "a b c")) = [] ∧
      dotW [1, 1, 1, 1, 1]
          (tfVec c4vocab (analyze (expand_query (pys "a b c"))))
          (tfVec c4vocab (analyze ((c4chunks.getD 1 default).text))) = 0 ∧
      dotW [1, 1, 1, 1, 1]
          (tfVec c4vocab (analyze (expand_query (pys "a b c"))))
          (tfVec c4vocab (analyze ((c4chunks.getD 0 default).text))) = 0 ∧
      search c4chunks [0, 0] (some 5) = [] ∧
      (search c4chunks [0, 0] (some 5)).head? = none := by
  have ha : analyze (expand_query (pys "a b c")) = [] := by decide
  refine ⟨rfl, by decide, ha, ?_, ?_, by decide, by decide⟩
  · rw [ha]; exact dotW_tfVec_nil _ _ _
  · rw [ha]; exact dotW_tfVec_nil _ _ _

/-- C1 (amended): the context string embedded into the generation prompt has
length at most `MAX_CONTEXT_LENGTH + 3` — the truncated slice is capped at
`MAX_CONTEXT_LENGTH` characters but the three-character ellipsis marker is
appended *after* slicing, so the budget itself can be exceeded by 3 (see the
counterexample); truncation is applied once to the final joined string
produced by `get_context` (which itself does not truncate), not per-chunk. -/
theorem c1_context_budget (chunks : List Chunk) (sims : List ℚ) :
    (embeddedContext chunks sims).length ≤ MAX_CONTEXT_LENGTH + 3 ∧
      (MAX_CONTEXT_LENGTH < (get_context chunks sims none).length →
        embeddedContext chunks sims =
          (get_context chunks sims none).take MAX_CONTEXT_LENGTH ++ pys "...") := by
  constructor
  · unfold embeddedContext truncate_context
    by_cases hlen : MAX_CONTEXT_LENGTH < (get_context chunks sims none).length
    · rw [if_pos hlen, List.length_append, List.length_take]
      have h3 : (pys "...").length = 3 := rfl
      omega
    · rw [if_neg hlen]
      omega
  · intro hlen
    unfold embeddedContext truncate_context
    rw [if_pos hlen]

/-- Witness for C1 (amended) on the empty corpus (the sentinel context). -/
theorem c1_witness :
    (embeddedContext [] []).length ≤ MAX_CONTEXT_LENGTH + 3 ∧
      (MAX_CONTEXT_LENGTH < (get_context [] [] none).length →
        embeddedContext [] [] =
          (get_context [] [] none).take MAX_CONTEXT_LENGTH ++ pys "...") :=
  c1_context_budget [] []

/-- Counterexample to C1 as stated: on a corpus whose single chunk has a
4000-character text (similarity row `[1]` when queried with that text), the
joined context is `"[Architecture]: "` plus 4000 characters — 4016 in all —
so the truncated context is 4000 characters plus the appended `"..."`:
4003 characters, strictly more than the configured budget of 4000. -/
theorem c1_counterexample :
    ¬((embeddedContext [bigChunk] [1]).length ≤ MAX_CONTEXT_LENGTH) := by
  have hsearch : search [bigChunk] [1] none = [(bigChunk, 1)] := rfl
  have hctx : get_context [bigChunk] [1] none = formatChunk bigChunk ++ [] := by
    rw [get_context, hsearch]
    rfl
  have hflen : (formatChunk bigChunk).length = 4016 := by
    show (pys "[" ++ pys "Architecture" ++ pys "]: " ++
      List.replicate 4000 'x').length = 4016
    have h1 : (pys "[").length = 1 := rfl
    have h2 : (pys "Architecture").length = 12 := rfl
    have h3 : (pys "]: ").length = 3 := rfl
    rw [List.length_append, List.length_append, List.length_append,
      h1, h2, h3, List.length_replicate]
  have hlen : (get_context [bigChunk] [1] none).length = 4016 := by
    rw [hctx, List.length_append, hflen]
    rfl
  unfold embeddedContext truncate_context
  rw [if_pos (by rw [hlen]; norm_num [MAX_CONTEXT_LENGTH])]
  rw [List.length_append, List.length_take, hlen]
  have h3 : (pys "...").length = 3 := rfl
  rw [h3]
  norm_num [MAX_CONTEXT_LENGTH]
